import Mathlib

/-!
Shallow embedding of the IPNI advertisement publisher
(`ipnipublisher/publisher/publisher.go`) from go-libstoracha.

The publisher orchestrates three stores (chunk links, metadata, chain/head),
an advertisement builder, signing, and a best-effort announcer.  The stores
are external collaborators (the `store` package is not part of the verified
source); they are modelled from the spec as in-memory key-value maps with a
NotFound signal.  Fallible external operations inside the commit step
(Validate, PutAdvert, NewSignedHead, PutHead, announce.Send) are modelled by
an injected `Failures` record giving the outcome of each call.
-/

namespace Storacha

/-- Peer identities are opaque; modelled as naturals. -/
abbrev PeerID := Nat

/-- Byte strings (context IDs, metadata blobs) modelled as lists of naturals. -/
abbrev Bytes := List Nat

/-- Content digests (multihashes) are opaque; modelled as naturals. -/
abbrev Digest := Nat

/-- IPLD links: the well-known `schema.NoEntries` sentinel, content-derived
chunk links (derived from the digest list they materialize), and links to
stored advertisements (indexed by the chain store's insertion counter). -/
inductive Link where
  | noEntries : Link
  | chunk (digests : List Digest) : Link
  | adv (id : Nat) : Link
deriving DecidableEq, Repr

/-- The `schema.Advertisement` record built by `publishAdvForIndex`:
provider identity, addresses, entries link, context ID, marshalled metadata
bytes, removal flag, optional previous link, and a signature (modelled as a
flag set by `Sign`). -/
structure Advertisement where
  provider : PeerID
  addresses : List String
  entries : Link
  contextID : Bytes
  metadata : Bytes
  isRm : Bool
  previousID : Option Link
  sig : Bool
deriving DecidableEq, Repr

/-- The signed head envelope produced by `head.NewSignedHead`: the link of
the latest advertisement plus the topic it is signed for. -/
structure SignedHead where
  head : Link
  topic : String
deriving DecidableEq, Repr

/-- Association-list lookup: first binding for the key wins (puts prepend,
so the newest binding shadows older ones). -/
def kvLookup {κ α : Type} [DecidableEq κ] : List (κ × α) → κ → Option α
  | [], _ => none
  | (k, v) :: rest, k' => if k' = k then some v else kvLookup rest k'

/-- Association-list deletion: removes every binding for the key. -/
def kvDelete {κ α : Type} [DecidableEq κ] (l : List (κ × α)) (k : κ) : List (κ × α) :=
  l.filter (fun p => !(decide (p.1 = k)))

/-- Modelled from the spec: the combined state of the publisher's stores
(`store.PublisherStore`, not under the verified source) — the
(provider, contextID) → chunk-link map, the (provider, contextID) → metadata
map, the chain store of advertisements keyed by an insertion counter, the
single head pointer, and the list of links handed to the announcer. -/
structure State where
  chunkLinks : List ((PeerID × Bytes) × Link)
  metadatas : List ((PeerID × Bytes) × Bytes)
  adverts : List (Nat × Advertisement)
  nextAdvId : Nat
  head : Option SignedHead
  announced : List Link
deriving DecidableEq, Repr

/-- Modelled from the spec: `chunkLink(provider, contextID) → link | NotFound`
(`none` is the NotFound signal). -/
def chunkLinkFor (s : State) (p : PeerID) (ctx : Bytes) : Option Link :=
  kvLookup s.chunkLinks (p, ctx)

/-- Modelled from the spec: `putChunk(provider, contextID, link)`. -/
def putChunkLink (s : State) (p : PeerID) (ctx : Bytes) (l : Link) : State :=
  { s with chunkLinks := ((p, ctx), l) :: s.chunkLinks }

/-- Modelled from the spec: `deleteChunk(provider, contextID)`. -/
def deleteChunkLink (s : State) (p : PeerID) (ctx : Bytes) : State :=
  { s with chunkLinks := kvDelete s.chunkLinks (p, ctx) }

/-- Modelled from the spec: `metadata(provider, contextID) → bytes | NotFound`. -/
def metadataFor (s : State) (p : PeerID) (ctx : Bytes) : Option Bytes :=
  kvLookup s.metadatas (p, ctx)

/-- Modelled from the spec: `putMetadata(provider, contextID, bytes)`. -/
def putMetadata (s : State) (p : PeerID) (ctx : Bytes) (md : Bytes) : State :=
  { s with metadatas := ((p, ctx), md) :: s.metadatas }

/-- Modelled from the spec: `deleteMetadata(provider, contextID)`. -/
def deleteMetadata (s : State) (p : PeerID) (ctx : Bytes) : State :=
  { s with metadatas := kvDelete s.metadatas (p, ctx) }

/-- Modelled from the spec: `materialize(digests) → link` (`store.PutEntries`).
A nonempty digest sequence materializes to a content-derived chunk link;
zero entries yield no link (`none`), which `publishAdvForIndex` replaces with
the `NoEntries` sentinel. -/
def putEntries (digests : List Digest) : Option Link :=
  if digests.isEmpty then none else some (Link.chunk digests)

/-- Modelled from the spec: `putAdvertisement(ad) → link` — stores the
advertisement in the chain store and returns its content-derived link. -/
def putAdvert (s : State) (a : Advertisement) : Link × State :=
  (Link.adv s.nextAdvId,
   { s with adverts := (s.nextAdvId, a) :: s.adverts, nextAdvId := s.nextAdvId + 1 })

/-- Resolve an advertisement link in the chain store. -/
def advertAt (s : State) : Link → Option Advertisement
  | Link.adv i => kvLookup s.adverts i
  | _ => none

/-- The Go zero value of `metadata.Metadata`, which `prevMetadata` holds when
the metadata lookup returns NotFound; byte-exact equality (`md.Equal`) is
modelled on marshalled bytes, and the zero value marshals to no bytes. -/
def zeroMetadata : Bytes := []

/-- Marshalled bytes of `metadata.Default.New()`, the valid-but-empty
metadata substituted on the removal path. -/
def defaultMetadataBytes : Bytes := []

/-- Errors surfaced by the publisher: the distinguished no-op and
context-not-found signals from `publishAdvForIndex`, plus the failures of the
external operations inside the commit step. -/
inductive PubErr where
  | alreadyAdvertised : PubErr
  | contextIDNotFound : PubErr
  | validateFailed : PubErr
  | putAdvertFailed : PubErr
  | newSignedHeadFailed : PubErr
  | putHeadFailed : PubErr
deriving DecidableEq, Repr

/-- Outcomes injected for the fallible external operations used by the
commit step (`adv.Validate`, `store.PutAdvert`, `head.NewSignedHead`,
`store.PutHead`, `announce.Send`); `true` means that call fails. -/
structure Failures where
  validateFails : Bool
  putAdvertFails : Bool
  newSignedHeadFails : Bool
  putHeadFails : Bool
  announceFails : Bool
deriving DecidableEq, Repr

/-- The run in which every external operation succeeds. -/
def noFailures : Failures := ⟨false, false, false, false, false⟩

/-- Construction-time configuration: the head topic and whether an announce
sender was wired (`len(o.announceURLs) > 0`). -/
structure Config where
  topic : String
  hasSender : Bool
deriving DecidableEq, Repr

/-- The commit step `publishLocal`: validate the advertisement, store it in
the chain store obtaining its link, build the signed head for that link, and
store the head.  Each failing external call aborts with the state reached so
far (a failed single-key put writes nothing). -/
def publishLocal (cfg : Config) (f : Failures) (s : State) (adv : Advertisement) :
    Except PubErr Link × State :=
  if f.validateFails then (Except.error PubErr.validateFailed, s)
  else if f.putAdvertFails then (Except.error PubErr.putAdvertFailed, s)
  else
    let ls := putAdvert s adv
    if f.newSignedHeadFails then (Except.error PubErr.newSignedHeadFailed, ls.2)
    else if f.putHeadFails then (Except.error PubErr.putHeadFailed, ls.2)
    else (Except.ok ls.1, { ls.2 with head := some ⟨ls.1, cfg.topic⟩ })

/-- The `publish` step: commit locally, then — only when a sender is
configured — announce the new link, swallowing any announce failure. -/
def publish (cfg : Config) (f : Failures) (s : State) (adv : Advertisement) :
    Except PubErr Link × State :=
  match publishLocal cfg f s adv with
  | (Except.error e, s1) => (Except.error e, s1)
  | (Except.ok lnk, s1) =>
    if cfg.hasSender then
      if f.announceFails then (Except.ok lnk, s1)
      else (Except.ok lnk, { s1 with announced := lnk :: s1.announced })
    else (Except.ok lnk, s1)

/-- The tail of `publishAdvForIndex` shared by the add and removal paths:
marshal the metadata, build the advertisement with `PreviousID` taken from
the current head when one exists, sign it, and hand it to `publish`. -/
def finishAdv (cfg : Config) (f : Failures) (s : State) (p : PeerID)
    (addrs : List String) (ctx : Bytes) (mdBytes : Bytes) (isRm : Bool)
    (cl : Link) : Except PubErr Link × State :=
  publish cfg f s
    { provider := p, addresses := addrs, entries := cl, contextID := ctx,
      metadata := mdBytes, isRm := isRm,
      previousID := Option.map SignedHead.head s.head, sig := true }

/-- The core `publishAdvForIndex`.  Add path: on a missing chunk link,
materialize the digests (substituting the sentinel for no link) and persist
the chunk mapping; on an existing chunk link, compare the supplied metadata
byte-exactly against the stored metadata (the Go zero value when the lookup
reported NotFound) and abort with `alreadyAdvertised` on equality; then
persist the metadata.  Removal path: a missing chunk link aborts with
`contextIDNotFound`; otherwise delete both mappings and advertise the
sentinel with the valid-but-empty default metadata. -/
def publishAdvForIndex (cfg : Config) (f : Failures) (s : State) (p : PeerID)
    (addrs : List String) (ctx : Bytes) (md : Bytes) (isRm : Bool)
    (mhs : List Digest) : Except PubErr Link × State :=
  if isRm then
    match chunkLinkFor s p ctx with
    | none => (Except.error PubErr.contextIDNotFound, s)
    | some _ =>
      let s1 := deleteChunkLink s p ctx
      let s2 := deleteMetadata s1 p ctx
      finishAdv cfg f s2 p addrs ctx defaultMetadataBytes true Link.noEntries
  else
    match chunkLinkFor s p ctx with
    | none =>
      let cl := (putEntries mhs).getD Link.noEntries
      let s1 := putChunkLink s p ctx cl
      let s2 := putMetadata s1 p ctx md
      finishAdv cfg f s2 p addrs ctx md false cl
    | some cl =>
      if md = (metadataFor s p ctx).getD zeroMetadata then
        (Except.error PubErr.alreadyAdvertised, s)
      else
        let s2 := putMetadata s p ctx md
        finishAdv cfg f s2 p addrs ctx md false cl

/-- The public `Publish` entry point: the add path of `publishAdvForIndex`. -/
def Publish (cfg : Config) (f : Failures) (s : State) (p : PeerID)
    (addrs : List String) (ctx : Bytes) (md : Bytes) (mhs : List Digest) :
    Except PubErr Link × State :=
  publishAdvForIndex cfg f s p addrs ctx md false mhs

/-- The head never dangles: whenever a head is stored, its advertisement
link resolves in the chain store. -/
def headOk (s : State) : Bool :=
  match s.head with
  | none => true
  | some sh => (advertAt s sh.head).isSome

/-! Helper lemmas about the key-value maps and the commit step. -/

theorem kvLookup_cons_self {κ α : Type} [DecidableEq κ] (l : List (κ × α)) (k : κ) (v : α) :
    kvLookup ((k, v) :: l) k = some v := by
  simp [kvLookup]

theorem kvLookup_kvDelete {κ α : Type} [DecidableEq κ] (l : List (κ × α)) (k : κ) :
    kvLookup (kvDelete l k) k = none := by
  induction l with
  | nil => rfl
  | cons p rest ih =>
    by_cases hk : p.1 = k
    · simpa [kvDelete, hk] using ih
    · simpa [kvDelete, kvLookup, hk, Ne.symm hk] using ih

theorem publishLocal_ok {cfg : Config} {f : Failures} {s : State} {adv : Advertisement}
    {l : Link} {s' : State} (h : publishLocal cfg f s adv = (Except.ok l, s')) :
    l = Link.adv s.nextAdvId ∧
    s' = { s with adverts := (s.nextAdvId, adv) :: s.adverts,
                  nextAdvId := s.nextAdvId + 1,
                  head := some ⟨Link.adv s.nextAdvId, cfg.topic⟩ } := by
  cases hv : f.validateFails <;> cases hp : f.putAdvertFails <;>
    cases hn : f.newSignedHeadFails <;> cases hh : f.putHeadFails <;>
    simp [publishLocal, putAdvert, hv, hp, hn, hh, Prod.ext_iff] at h
  exact ⟨h.1.symm, h.2.symm⟩

theorem publishLocal_error {cfg : Config} {f : Failures} {s : State} {adv : Advertisement}
    {e : PubErr} {s' : State} (h : publishLocal cfg f s adv = (Except.error e, s')) :
    s'.head = s.head := by
  cases hv : f.validateFails <;> cases hp : f.putAdvertFails <;>
    cases hn : f.newSignedHeadFails <;> cases hh : f.putHeadFails <;>
    simp [publishLocal, putAdvert, hv, hp, hn, hh, Prod.ext_iff] at h <;>
    rw [← h.2]

theorem kvLookup_cons_isSome {κ α : Type} [DecidableEq κ] {l : List (κ × α)} {k : κ}
    (n : κ) (a : α) (h : (kvLookup l k).isSome = true) :
    (kvLookup ((n, a) :: l) k).isSome = true := by
  by_cases hk : k = n <;> simp [kvLookup, hk, h]

theorem headOk_consAdv (s : State) (a : Advertisement) (h : headOk s = true) :
    headOk { s with adverts := (s.nextAdvId, a) :: s.adverts,
                    nextAdvId := s.nextAdvId + 1 } = true := by
  cases hs : s.head with
  | none => simp [headOk, hs]
  | some sh =>
    simp [headOk, hs] at h ⊢
    cases hr : sh.head with
    | adv i =>
      simp [advertAt, hr] at h ⊢
      exact kvLookup_cons_isSome _ _ h
    | noEntries => rw [hr] at h; simp [advertAt] at h
    | chunk d => rw [hr] at h; simp [advertAt] at h

theorem publishLocal_headOk (cfg : Config) (f : Failures) (s : State) (adv : Advertisement)
    (h : headOk s = true) : headOk (publishLocal cfg f s adv).2 = true := by
  cases hv : f.validateFails <;> cases hp : f.putAdvertFails <;>
    cases hn : f.newSignedHeadFails <;> cases hh : f.putHeadFails <;>
      simp [publishLocal, putAdvert, hv, hp, hn, hh] <;>
      first
        | exact h
        | exact headOk_consAdv s adv h
        | simp [headOk, advertAt, kvLookup]

theorem publish_ok {cfg : Config} {f : Failures} {s : State} {adv : Advertisement}
    {l : Link} {s' : State} (h : publish cfg f s adv = (Except.ok l, s')) :
    l = Link.adv s.nextAdvId ∧
    s'.adverts = (s.nextAdvId, adv) :: s.adverts ∧
    s'.nextAdvId = s.nextAdvId + 1 ∧
    s'.head = some ⟨Link.adv s.nextAdvId, cfg.topic⟩ ∧
    s'.chunkLinks = s.chunkLinks ∧
    s'.metadatas = s.metadatas := by
  unfold publish at h
  rcases hl : publishLocal cfg f s adv with ⟨r, s1⟩
  rw [hl] at h
  cases r with
  | error e => simp at h
  | ok lnk =>
    obtain ⟨rfl, rfl⟩ := publishLocal_ok hl
    cases hsend : cfg.hasSender <;> cases hann : f.announceFails <;>
      simp [hsend, hann, Prod.ext_iff] at h <;>
      obtain ⟨rfl, rfl⟩ := h <;> simp

theorem finishAdv_ok {cfg : Config} {f : Failures} {s : State} {p : PeerID}
    {addrs : List String} {ctx : Bytes} {mdB : Bytes} {rm : Bool} {cl : Link}
    {l : Link} {s' : State}
    (h : finishAdv cfg f s p addrs ctx mdB rm cl = (Except.ok l, s')) :
    l = Link.adv s.nextAdvId ∧
    advertAt s' l = some ⟨p, addrs, cl, ctx, mdB, rm, Option.map SignedHead.head s.head, true⟩ ∧
    s'.head = some ⟨l, cfg.topic⟩ ∧
    s'.chunkLinks = s.chunkLinks ∧
    s'.metadatas = s.metadatas := by
  obtain ⟨hl, ha, _, hh, hc, hm⟩ := publish_ok h
  subst hl
  exact ⟨rfl, by simp [advertAt, ha, kvLookup], hh, hc, hm⟩

theorem finishAdv_noFailures_fst (cfg : Config) (s : State) (p : PeerID)
    (addrs : List String) (ctx : Bytes) (mdB : Bytes) (rm : Bool) (cl : Link) :
    (finishAdv cfg noFailures s p addrs ctx mdB rm cl).1 =
      Except.ok (Link.adv s.nextAdvId) := by
  cases hsend : cfg.hasSender <;>
    simp [finishAdv, publish, publishLocal, putAdvert, noFailures, hsend]

theorem finishAdv_noFailures_exists (cfg : Config) (s : State) (p : PeerID)
    (addrs : List String) (ctx : Bytes) (mdB : Bytes) (rm : Bool) (cl : Link) :
    ∃ s', finishAdv cfg noFailures s p addrs ctx mdB rm cl =
      (Except.ok (Link.adv s.nextAdvId), s') := by
  rcases hfin : finishAdv cfg noFailures s p addrs ctx mdB rm cl with ⟨r, s'⟩
  have hr := finishAdv_noFailures_fst cfg s p addrs ctx mdB rm cl
  rw [hfin] at hr
  simp only [Prod.fst] at hr
  exact ⟨s', by rw [hr]⟩

theorem finishAdv_not_alreadyAdvertised (cfg : Config) (f : Failures) (s : State)
    (p : PeerID) (addrs : List String) (ctx : Bytes) (mdB : Bytes) (rm : Bool) (cl : Link) :
    (finishAdv cfg f s p addrs ctx mdB rm cl).1 ≠ Except.error PubErr.alreadyAdvertised := by
  cases hv : f.validateFails <;> cases hp : f.putAdvertFails <;>
    cases hn : f.newSignedHeadFails <;> cases hh : f.putHeadFails <;>
    cases hsend : cfg.hasSender <;> cases hann : f.announceFails <;>
    simp [finishAdv, publish, publishLocal, putAdvert, hv, hp, hn, hh, hsend, hann]

theorem Publish_ok {cfg : Config} {f : Failures} {s : State} {p : PeerID}
    {addrs : List String} {ctx : Bytes} {md : Bytes} {mhs : List Digest}
    {l : Link} {s' : State}
    (h : Publish cfg f s p addrs ctx md mhs = (Except.ok l, s')) :
    s'.head = some ⟨l, cfg.topic⟩ ∧
    metadataFor s' p ctx = some md ∧
    (∃ cl, chunkLinkFor s' p ctx = some cl ∧
      advertAt s' l = some ⟨p, addrs, cl, ctx, md, false,
        Option.map SignedHead.head s.head, true⟩) := by
  unfold Publish publishAdvForIndex at h
  simp only [if_false, Bool.false_eq_true, ite_false] at h
  cases hcl0 : chunkLinkFor s p ctx with
  | none =>
    rw [hcl0] at h
    simp only [] at h
    obtain ⟨hl, hadv, hh, hc, hm⟩ := finishAdv_ok h
    refine ⟨by simpa [putMetadata, putChunkLink] using hh, ?_, ?_⟩
    · simp [metadataFor, hm, putMetadata, putChunkLink, kvLookup_cons_self]
    · exact ⟨(putEntries mhs).getD Link.noEntries,
        by simp [chunkLinkFor, hc, putMetadata, putChunkLink, kvLookup_cons_self],
        by simpa [putMetadata, putChunkLink] using hadv⟩
  | some cl =>
    rw [hcl0] at h
    simp only [] at h
    split at h
    · simp at h
    · obtain ⟨hl, hadv, hh, hc, hm⟩ := finishAdv_ok h
      refine ⟨by simpa [putMetadata] using hh, ?_, ?_⟩
      · simp [metadataFor, hm, putMetadata, kvLookup_cons_self]
      · exact ⟨cl, by simpa [chunkLinkFor, hc, putMetadata] using hcl0,
          by simpa [putMetadata] using hadv⟩

/-! Claim theorems. -/

/-- C2: in the commit step `publishLocal`, every failing path (validation,
advertisement store, signed-head construction, head store) leaves the stored
Head at its prior value, and the head-resolvability invariant is preserved:
at no reachable point does the Head reference an advertisement link the
chain store cannot resolve. -/
theorem commit_updates_head_only_after_store (cfg : Config) (f : Failures)
    (s : State) (adv : Advertisement) (hok : headOk s = true) :
    (∀ e s', publishLocal cfg f s adv = (Except.error e, s') → s'.head = s.head) ∧
    headOk (publishLocal cfg f s adv).2 = true :=
  ⟨fun _ _ h => publishLocal_error h, publishLocal_headOk cfg f s adv hok⟩

/-- C6: a removal for a (provider, contextID) whose chunk-link lookup reports
NotFound fails with the distinguished contextIDNotFound error and leaves the
whole store state untouched — no advertisement is stored and no mapping or
head is modified. -/
theorem removal_requires_prior_publish (cfg : Config) (f : Failures) (s : State)
    (p : PeerID) (addrs : List String) (ctx : Bytes) (md : Bytes) (mhs : List Digest)
    (h : chunkLinkFor s p ctx = none) :
    publishAdvForIndex cfg f s p addrs ctx md true mhs =
      (Except.error PubErr.contextIDNotFound, s) := by
  simp [publishAdvForIndex, h]

/-- C8: once the local commit succeeds with link `l`, `publish` returns
`Except.ok l` whatever the announce outcome is (announcement failure is never
propagated), and when no sender is configured the announce step is skipped
entirely, leaving the committed state as is. -/
theorem announce_failure_not_propagated (cfg : Config) (f : Failures) (s : State)
    (adv : Advertisement) (l : Link) (s1 : State)
    (h : publishLocal cfg f s adv = (Except.ok l, s1)) :
    (publish cfg f s adv).1 = Except.ok l ∧
    (cfg.hasSender = false → publish cfg f s adv = (Except.ok l, s1)) := by
  unfold publish
  rw [h]
  cases hsend : cfg.hasSender <;> cases hann : f.announceFails <;> simp

/-- C9: on the add path with no existing chunk link, a materialization that
yields no link is not an error — the call succeeds, the advertisement's
Entries is the NoEntries sentinel, and the persisted chunk mapping for the
(provider, contextID) is that sentinel. -/
theorem empty_materialization_uses_sentinel (cfg : Config) (s : State) (p : PeerID)
    (addrs : List String) (ctx : Bytes) (md : Bytes) (mhs : List Digest)
    (hnone : chunkLinkFor s p ctx = none) (hmat : putEntries mhs = none) :
    ∃ l s', publishAdvForIndex cfg noFailures s p addrs ctx md false mhs =
        (Except.ok l, s') ∧
      advertAt s' l = some ⟨p, addrs, Link.noEntries, ctx, md, false,
        Option.map SignedHead.head s.head, true⟩ ∧
      chunkLinkFor s' p ctx = some Link.noEntries := by
  obtain ⟨s', hfin⟩ := finishAdv_noFailures_exists cfg
    (putMetadata (putChunkLink s p ctx ((putEntries mhs).getD Link.noEntries)) p ctx md)
    p addrs ctx md false ((putEntries mhs).getD Link.noEntries)
  obtain ⟨hl, hadv, hh, hc, hm⟩ := finishAdv_ok hfin
  refine ⟨Link.adv s.nextAdvId, s', ?_, ?_, ?_⟩
  · simp only [publishAdvForIndex, hnone, if_false, Bool.false_eq_true, ite_false]
    exact hfin
  · simpa [putMetadata, putChunkLink, hmat] using hadv
  · simp [chunkLinkFor, hc, putMetadata, putChunkLink, hmat, kvLookup_cons_self]

/-- C5: publishing under a (provider, contextID) that already has a stored
chunk link, with metadata different from the stored metadata, succeeds, the
new advertisement's Entries equals the previously stored chunk link (reused,
not regenerated), the stored metadata is overwritten with the new value, and
the advertisement's removal flag is false. -/
theorem metadata_republish_reuses_chunk (cfg : Config) (s : State) (p : PeerID)
    (addrs : List String) (ctx : Bytes) (md prior : Bytes) (cl : Link)
    (mhs : List Digest)
    (hcl : chunkLinkFor s p ctx = some cl)
    (hmd : metadataFor s p ctx = some prior)
    (hne : md ≠ prior) :
    ∃ l s', publishAdvForIndex cfg noFailures s p addrs ctx md false mhs =
        (Except.ok l, s') ∧
      advertAt s' l = some ⟨p, addrs, cl, ctx, md, false,
        Option.map SignedHead.head s.head, true⟩ ∧
      metadataFor s' p ctx = some md ∧
      chunkLinkFor s' p ctx = some cl := by
  have htest : ¬ md = (metadataFor s p ctx).getD zeroMetadata := by
    rw [hmd]; exact hne
  obtain ⟨s', hfin⟩ := finishAdv_noFailures_exists cfg
    (putMetadata s p ctx md) p addrs ctx md false cl
  obtain ⟨hl, hadv, hh, hc, hm⟩ := finishAdv_ok hfin
  refine ⟨Link.adv s.nextAdvId, s', ?_, ?_, ?_, ?_⟩
  · simp only [publishAdvForIndex, hcl, if_false, Bool.false_eq_true, ite_false,
      if_neg htest]
    exact hfin
  · simpa [putMetadata] using hadv
  · simp [metadataFor, hm, putMetadata, kvLookup_cons_self]
  · simpa [chunkLinkFor, hc, putMetadata] using hcl

/-- C7: a removal of a previously published (provider, contextID) succeeds,
deletes both the chunk-link and metadata mappings (subsequent lookups report
NotFound), and the stored removal advertisement has isRm = true, Entries
equal to the NoEntries sentinel, and the valid-but-empty default metadata in
place of any caller-supplied metadata. -/
theorem removal_clears_associations (cfg : Config) (s : State) (p : PeerID)
    (addrs : List String) (ctx : Bytes) (md : Bytes) (mhs : List Digest) (cl : Link)
    (hcl : chunkLinkFor s p ctx = some cl) :
    ∃ l s', publishAdvForIndex cfg noFailures s p addrs ctx md true mhs =
        (Except.ok l, s') ∧
      chunkLinkFor s' p ctx = none ∧
      metadataFor s' p ctx = none ∧
      advertAt s' l = some ⟨p, addrs, Link.noEntries, ctx, defaultMetadataBytes, true,
        Option.map SignedHead.head s.head, true⟩ := by
  obtain ⟨s', hfin⟩ := finishAdv_noFailures_exists cfg
    (deleteMetadata (deleteChunkLink s p ctx) p ctx) p addrs ctx
    defaultMetadataBytes true Link.noEntries
  obtain ⟨hl, hadv, hh, hc, hm⟩ := finishAdv_ok hfin
  refine ⟨Link.adv s.nextAdvId, s', ?_, ?_, ?_, ?_⟩
  · simp only [publishAdvForIndex, hcl, if_true]
    exact hfin
  · simp [chunkLinkFor, hc, deleteMetadata, deleteChunkLink, kvLookup_kvDelete]
  · simp [metadataFor, hm, deleteMetadata, deleteChunkLink, kvLookup_kvDelete]
  · simpa [deleteMetadata, deleteChunkLink] using hadv

/-- C10: on the add path with an existing chunk link for the
(provider, contextID), the supplied digest sequence is never consumed — two
calls from the same state differing only in their digests produce identical
results and state, and any successful such call stores an advertisement
whose Entries is the old stored chunk link. -/
theorem digests_ignored_on_existing_chunk (cfg : Config) (f : Failures) (s : State)
    (p : PeerID) (addrs : List String) (ctx : Bytes) (md : Bytes) (cl : Link)
    (d1 d2 : List Digest) (hcl : chunkLinkFor s p ctx = some cl) :
    publishAdvForIndex cfg f s p addrs ctx md false d1 =
      publishAdvForIndex cfg f s p addrs ctx md false d2 ∧
    (∀ l s', publishAdvForIndex cfg f s p addrs ctx md false d1 = (Except.ok l, s') →
      ∃ a, advertAt s' l = some a ∧ a.entries = cl) := by
  constructor
  · simp [publishAdvForIndex, hcl]
  · intro l s' h
    simp only [publishAdvForIndex, hcl, if_false, Bool.false_eq_true, ite_false] at h
    split at h
    · simp at h
    · obtain ⟨hl, hadv, hh, hc, hm⟩ := finishAdv_ok h
      exact ⟨_, hadv, rfl⟩

/-- C3: if a Publish succeeds, an immediately repeated Publish with the
identical arguments returns the distinguished alreadyAdvertised error with
no link and leaves the head and the whole store state unchanged. -/
theorem repeat_publish_already_advertised (cfg : Config) (f f2 : Failures)
    (s : State) (p : PeerID) (addrs : List String) (ctx : Bytes) (md : Bytes)
    (mhs : List Digest) (l : Link) (s1 : State)
    (h : Publish cfg f s p addrs ctx md mhs = (Except.ok l, s1)) :
    Publish cfg f2 s1 p addrs ctx md mhs =
      (Except.error PubErr.alreadyAdvertised, s1) := by
  obtain ⟨_, hmd1, cl, hcl1, _⟩ := Publish_ok h
  simp [Publish, publishAdvForIndex, hcl1, hmd1]

/-- C1: successful publishes chain linearly — the advertisement stored by
the second of two successive successful publishes has PreviousID equal to
the link returned by the first (the head at the time of the second call),
each stored advertisement's PreviousID equals the head link present when it
was published, and PreviousID is set if and only if the head lookup returned
a head rather than NotFound (so the very first advertisement has none). -/
theorem chain_linkage (cfg1 cfg2 : Config) (f1 f2 : Failures) (s : State)
    (p1 p2 : PeerID) (a1 a2 : List String) (c1 c2 : Bytes) (md1 md2 : Bytes)
    (d1 d2 : List Digest) (l1 l2 : Link) (s1 s2 : State)
    (h1 : Publish cfg1 f1 s p1 a1 c1 md1 d1 = (Except.ok l1, s1))
    (h2 : Publish cfg2 f2 s1 p2 a2 c2 md2 d2 = (Except.ok l2, s2)) :
    (∃ a, advertAt s2 l2 = some a ∧ a.previousID = some l1) ∧
    (∃ a, advertAt s1 l1 = some a ∧
      a.previousID = Option.map SignedHead.head s.head ∧
      (a.previousID.isSome ↔ s.head.isSome)) := by
  obtain ⟨hh1, _, cl1, hcl1, hadv1⟩ := Publish_ok h1
  obtain ⟨hh2, _, cl2, hcl2, hadv2⟩ := Publish_ok h2
  constructor
  · exact ⟨_, hadv2, by simp [hh1]⟩
  · exact ⟨_, hadv1, rfl, by simp [Option.isSome_map']⟩

/-- C4 as stated is false: with an existing chunk link, a metadata lookup
reporting NotFound, and an empty supplied metadata, the call returns
alreadyAdvertised (the Go zero-value metadata compares equal byte-exactly)
instead of proceeding to produce a new advertisement. -/
theorem already_advertised_on_notfound_counterexample :
    metadataFor ⟨[((0, [1]), Link.chunk [5])], [], [], 0, none, []⟩ 0 [1] = none ∧
    publishAdvForIndex ⟨"t", false⟩ noFailures
      ⟨[((0, [1]), Link.chunk [5])], [], [], 0, none, []⟩ 0 [] [1] [] false [] =
      (Except.error PubErr.alreadyAdvertised,
       ⟨[((0, [1]), Link.chunk [5])], [], [], 0, none, []⟩) := by
  exact ⟨rfl, rfl⟩

/-- C4 amended: with an existing chunk link, a metadata lookup reporting
NotFound does not by itself fail the call, and the alreadyAdvertised abort
happens exactly when the supplied metadata equals the stored metadata
byte-exactly, where a NotFound lookup contributes the zero (empty) metadata
value; in particular, with supplied metadata different from the zero value a
NotFound lookup still leads to a new advertisement. -/
theorem already_advertised_exact_condition (cfg : Config) (f : Failures)
    (s : State) (p : PeerID) (addrs : List String) (ctx : Bytes) (md : Bytes)
    (cl : Link) (mhs : List Digest) (hcl : chunkLinkFor s p ctx = some cl) :
    ((publishAdvForIndex cfg f s p addrs ctx md false mhs).1 =
        Except.error PubErr.alreadyAdvertised ↔
      md = (metadataFor s p ctx).getD zeroMetadata) ∧
    (metadataFor s p ctx = none → md ≠ zeroMetadata →
      ∃ l s', publishAdvForIndex cfg noFailures s p addrs ctx md false mhs =
        (Except.ok l, s')) := by
  constructor
  · by_cases htest : md = (metadataFor s p ctx).getD zeroMetadata
    · simp [publishAdvForIndex, hcl, htest]
    · simp only [publishAdvForIndex, hcl, if_false, Bool.false_eq_true, ite_false,
        if_neg htest]
      simp only [htest, iff_false]
      exact finishAdv_not_alreadyAdvertised cfg f (putMetadata s p ctx md)
        p addrs ctx md false cl
  · intro hnone hne
    have htest : ¬ md = (metadataFor s p ctx).getD zeroMetadata := by
      rw [hnone]; exact hne
    obtain ⟨s', hfin⟩ := finishAdv_noFailures_exists cfg
      (putMetadata s p ctx md) p addrs ctx md false cl
    refine ⟨Link.adv s.nextAdvId, s', ?_⟩
    simp only [publishAdvForIndex, hcl, if_false, Bool.false_eq_true, ite_false,
      if_neg htest]
    exact hfin

/-! Concrete fixtures for the witness theorems. -/

/-- A configuration with topic `t` and no announce sender. -/
def cfgW : Config := ⟨"t", false⟩

/-- A signed advertisement used as chain-store content in witnesses. -/
def advW : Advertisement := ⟨0, [], Link.noEntries, [1], [2], false, none, true⟩

/-- A state whose head points at the stored advertisement `advW`. -/
def sHeadW : State := ⟨[], [], [(0, advW)], 1, some ⟨Link.adv 0, "t"⟩, []⟩

/-- The state of a fresh publisher: empty stores, no head. -/
def emptyState : State := ⟨[], [], [], 0, none, []⟩

/-- A state holding a chunk link and metadata `[2]` for provider 0,
context `[1]`. -/
def sChunkW : State := ⟨[((0, [1]), Link.chunk [3])], [((0, [1]), [2])], [], 0, none, []⟩

/-- A state holding a chunk link but no metadata for provider 0,
context `[1]`. -/
def sNoMetaW : State := ⟨[((0, [1]), Link.chunk [5])], [], [], 0, none, []⟩

/-- The run in which only the advertisement store fails. -/
def fPutAdvFailsW : Failures := ⟨false, true, false, false, false⟩

/-- The run in which only the announcement fails. -/
def fAnnFailsW : Failures := ⟨false, false, false, false, true⟩

theorem commit_updates_head_only_after_store_witness :
    (publishLocal cfgW fPutAdvFailsW sHeadW advW).2.head = sHeadW.head ∧
    headOk (publishLocal cfgW fPutAdvFailsW sHeadW advW).2 = true :=
  ⟨(commit_updates_head_only_after_store cfgW fPutAdvFailsW sHeadW advW (by decide)).1
      PubErr.putAdvertFailed (publishLocal cfgW fPutAdvFailsW sHeadW advW).2 rfl,
   (commit_updates_head_only_after_store cfgW fPutAdvFailsW sHeadW advW (by decide)).2⟩

theorem removal_requires_prior_publish_witness :
    publishAdvForIndex cfgW noFailures emptyState 0 [] [1] [2] true [3] =
      (Except.error PubErr.contextIDNotFound, emptyState) :=
  removal_requires_prior_publish cfgW noFailures emptyState 0 [] [1] [2] [3] rfl

theorem announce_failure_not_propagated_witness :
    (publish cfgW fAnnFailsW emptyState advW).1 = Except.ok (Link.adv 0) ∧
    publish cfgW fAnnFailsW emptyState advW =
      (Except.ok (Link.adv 0), (publishLocal cfgW fAnnFailsW emptyState advW).2) :=
  ⟨(announce_failure_not_propagated cfgW fAnnFailsW emptyState advW (Link.adv 0)
      (publishLocal cfgW fAnnFailsW emptyState advW).2 rfl).1,
   (announce_failure_not_propagated cfgW fAnnFailsW emptyState advW (Link.adv 0)
      (publishLocal cfgW fAnnFailsW emptyState advW).2 rfl).2 rfl⟩

theorem empty_materialization_uses_sentinel_witness :
    ∃ l s', publishAdvForIndex cfgW noFailures emptyState 0 [] [1] [2] false [] =
        (Except.ok l, s') ∧
      advertAt s' l = some ⟨0, [], Link.noEntries, [1], [2], false,
        Option.map SignedHead.head emptyState.head, true⟩ ∧
      chunkLinkFor s' 0 [1] = some Link.noEntries :=
  empty_materialization_uses_sentinel cfgW emptyState 0 [] [1] [2] [] rfl rfl

theorem metadata_republish_reuses_chunk_witness :
    ∃ l s', publishAdvForIndex cfgW noFailures sChunkW 0 [] [1] [7] false [3] =
        (Except.ok l, s') ∧
      advertAt s' l = some ⟨0, [], Link.chunk [3], [1], [7], false,
        Option.map SignedHead.head sChunkW.head, true⟩ ∧
      metadataFor s' 0 [1] = some [7] ∧
      chunkLinkFor s' 0 [1] = some (Link.chunk [3]) :=
  metadata_republish_reuses_chunk cfgW sChunkW 0 [] [1] [7] [2] (Link.chunk [3]) [3]
    rfl rfl (by decide)

theorem removal_clears_associations_witness :
    ∃ l s', publishAdvForIndex cfgW noFailures sChunkW 0 [] [1] [9] true [] =
        (Except.ok l, s') ∧
      chunkLinkFor s' 0 [1] = none ∧
      metadataFor s' 0 [1] = none ∧
      advertAt s' l = some ⟨0, [], Link.noEntries, [1], defaultMetadataBytes, true,
        Option.map SignedHead.head sChunkW.head, true⟩ :=
  removal_clears_associations cfgW sChunkW 0 [] [1] [9] [] (Link.chunk [3]) rfl

theorem digests_ignored_on_existing_chunk_witness :
    publishAdvForIndex cfgW noFailures sChunkW 0 [] [1] [7] false [3] =
      publishAdvForIndex cfgW noFailures sChunkW 0 [] [1] [7] false [8] ∧
    (∃ a, advertAt (publishAdvForIndex cfgW noFailures sChunkW 0 [] [1] [7] false [3]).2
        (Link.adv 0) = some a ∧ a.entries = Link.chunk [3]) :=
  ⟨(digests_ignored_on_existing_chunk cfgW noFailures sChunkW 0 [] [1] [7]
      (Link.chunk [3]) [3] [8] rfl).1,
   (digests_ignored_on_existing_chunk cfgW noFailures sChunkW 0 [] [1] [7]
      (Link.chunk [3]) [3] [8] rfl).2 (Link.adv 0)
      (publishAdvForIndex cfgW noFailures sChunkW 0 [] [1] [7] false [3]).2 rfl⟩

theorem repeat_publish_already_advertised_witness :
    Publish cfgW noFailures (Publish cfgW noFailures emptyState 0 [] [1] [2] [3]).2
        0 [] [1] [2] [3] =
      (Except.error PubErr.alreadyAdvertised,
       (Publish cfgW noFailures emptyState 0 [] [1] [2] [3]).2) :=
  repeat_publish_already_advertised cfgW noFailures noFailures emptyState 0 [] [1] [2]
    [3] (Link.adv 0) (Publish cfgW noFailures emptyState 0 [] [1] [2] [3]).2 rfl

theorem chain_linkage_witness :
    (∃ a, advertAt (Publish cfgW noFailures
        (Publish cfgW noFailures emptyState 0 [] [1] [2] [3]).2 0 [] [4] [2] [9]).2
        (Link.adv 1) = some a ∧ a.previousID = some (Link.adv 0)) ∧
    (∃ a, advertAt (Publish cfgW noFailures emptyState 0 [] [1] [2] [3]).2
        (Link.adv 0) = some a ∧
      a.previousID = Option.map SignedHead.head emptyState.head ∧
      (a.previousID.isSome ↔ emptyState.head.isSome)) :=
  chain_linkage cfgW cfgW noFailures noFailures emptyState 0 0 [] [] [1] [4] [2] [2]
    [3] [9] (Link.adv 0) (Link.adv 1)
    (Publish cfgW noFailures emptyState 0 [] [1] [2] [3]).2
    (Publish cfgW noFailures
      (Publish cfgW noFailures emptyState 0 [] [1] [2] [3]).2 0 [] [4] [2] [9]).2
    rfl rfl

theorem already_advertised_exact_condition_witness :
    ((publishAdvForIndex cfgW noFailures sNoMetaW 0 [] [1] [7] false []).1 =
        Except.error PubErr.alreadyAdvertised ↔
      [7] = (metadataFor sNoMetaW 0 [1]).getD zeroMetadata) ∧
    (∃ l s', publishAdvForIndex cfgW noFailures sNoMetaW 0 [] [1] [7] false [] =
        (Except.ok l, s')) :=
  ⟨(already_advertised_exact_condition cfgW noFailures sNoMetaW 0 [] [1] [7]
      (Link.chunk [5]) [] rfl).1,
   (already_advertised_exact_condition cfgW noFailures sNoMetaW 0 [] [1] [7]
      (Link.chunk [5]) [] rfl).2 rfl (by decide)⟩

end Storacha
